import Mathlib

/-!
# Verification of the pyCVRPLIB / vrplib decoder

A shallow embedding of the VRPLIB instance and solution decoders.

Lines are modelled as `List Char`.  The solution decoder
(`parse_solution`) is translated from `src/vrplib/parse/parse_solution.py`;
the instance decoder (`parse_vrplib`, with its helpers
`group_specifications_and_sections`, `parse_specification`,
`parse_section` and the edge-weight synthesizer) and the shared
utilities (`text2lines`, `infer_type`) are not in the source tree, so
they are modelled from the specification (sections 4.1-4.6), as noted
on each definition.

Python machine behaviour is made explicit: fallible operations return
`Except`/`Option`, `int(...)` parses an optional sign followed by
decimal digits with surrounding whitespace allowed, and floats are
modelled exactly as rationals.
-/

namespace VrpLib

/-- Whitespace characters recognised by trimming and token splitting. -/
def isWS (c : Char) : Bool :=
  c == ' ' || c == '\t' || c == '\r' || c == '\n'

/-- Strip leading and trailing whitespace (Python `str.strip`). -/
def trim (l : List Char) : List Char :=
  ((l.dropWhile isWS).reverse.dropWhile isWS).reverse

/-- Lower-case every character (Python `str.lower`). -/
def toLowerL (l : List Char) : List Char :=
  l.map Char.toLower

/-- Split at every character satisfying `p`, keeping empty chunks,
exactly like Python `str.split(sep)`. -/
def splitOnP (p : Char → Bool) : List Char → List (List Char)
  | [] => [[]]
  | x :: xs =>
    if p x then [] :: splitOnP p xs
    else
      match splitOnP p xs with
      | [] => [[x]]
      | s :: rest => (x :: s) :: rest

/-- Split at the first occurrence of `c`; `none` when `c` is absent
(Python `str.split(c, 1)` restricted to the success case). -/
def splitFirst (c : Char) : List Char → Option (List Char × List Char)
  | [] => none
  | x :: xs =>
    if x = c then some ([], xs)
    else (splitFirst c xs).map (fun p => (x :: p.1, p.2))

/-- Whitespace tokens of a line, empties dropped (Python `str.split()`). -/
def tokensWS (l : List Char) : List (List Char) :=
  (splitOnP isWS l).filter (fun t => t ≠ [])

/-- Substring test (Python `pat in line`). -/
def hasSubstr (pat : List Char) : List Char → Bool
  | [] => pat == []
  | x :: xs => pat.isPrefixOf (x :: xs) || hasSubstr pat xs

/-- Value of a nonempty all-digit token, most significant digit first. -/
def digitsToNat (l : List Char) : Nat :=
  l.foldl (fun acc c => 10 * acc + (c.toNat - '0'.toNat)) 0

/-- Parse a nonempty run of decimal digits. -/
def parseDigits (l : List Char) : Option Nat :=
  if l ≠ [] ∧ l.all Char.isDigit then some (digitsToNat l) else none

/-- Python `int(...)` on a trimmed token: optional sign, decimal digits. -/
def parseIntTok : List Char → Option Int
  | '+' :: rest => (parseDigits rest).map (fun n => (n : Int))
  | '-' :: rest => (parseDigits rest).map (fun n => -(n : Int))
  | l => (parseDigits l).map (fun n => (n : Int))

/-- Python `float(...)` on a trimmed token, modelled exactly over `ℚ`:
optional sign, digits with an optional decimal point (exponent forms
are not modelled; no claim depends on them).  The rational is assembled
with `mkRat` over integer arithmetic. -/
def parseFloatTok (l : List Char) : Option ℚ :=
  let body := match l with
    | '+' :: rest => (rest, (1 : Int))
    | '-' :: rest => (rest, (-1 : Int))
    | _ => (l, (1 : Int))
  match splitFirst '.' body.1 with
  | none => (parseDigits body.1).map (fun n => ((body.2 * (n : Int) : Int) : ℚ))
  | some (ip, fp) =>
    if fp.contains '.' then none
    else if ip.all Char.isDigit ∧ fp.all Char.isDigit ∧ (ip ≠ [] ∨ fp ≠ []) then
      some (mkRat (body.2 * ((digitsToNat ip * 10 ^ fp.length + digitsToNat fp : Nat) : Int))
        (10 ^ fp.length))
    else none

/-- A scalar value of the loosely typed union: integer, float or string. -/
inductive Value where
  | int (i : Int)
  | float (q : ℚ)
  | str (s : List Char)
deriving DecidableEq, Repr

/-- Modelled from the spec: `infer_type` from `vrplib/parse/parse_utils.py`
is not under `src/`.  Section 4.1: strip surrounding whitespace, try an
integer parse, then a float parse, and fall back to the trimmed string. -/
def infer_type (s : List Char) : Value :=
  let t := trim s
  match parseIntTok t with
  | some i => .int i
  | none =>
    match parseFloatTok t with
    | some q => .float q
    | none => .str t

/-- Association-list lookup on lists of key/value pairs. -/
def lookA {α : Type} (k : List Char) : List (List Char × α) → Option α
  | [] => none
  | (k2, v) :: rest => if k = k2 then some v else lookA k rest

/-- Python `dict` assignment: overwrite in place or append at the end. -/
def upsertA {α : Type} (k : List Char) (v : α) :
    List (List Char × α) → List (List Char × α)
  | [] => [(k, v)]
  | (k2, v2) :: rest =>
    if k = k2 then (k, v) :: rest else (k2, v2) :: upsertA k v rest

/-- Python `key in dict`. -/
def hasKey {α : Type} (k : List Char) (m : List (List Char × α)) : Bool :=
  (lookA k m).isSome

/-- Decidable equality of `Except` results, so that concrete decoder
runs can be checked with `decide`. -/
def exceptDecEq {ε α : Type} [DecidableEq ε] [DecidableEq α] :
    DecidableEq (Except ε α)
  | .error e1, .error e2 =>
    if h : e1 = e2 then .isTrue (by rw [h])
    else .isFalse (fun hc => by cases hc; exact h rfl)
  | .error _, .ok _ => .isFalse (fun hc => Except.noConfusion hc)
  | .ok _, .error _ => .isFalse (fun hc => Except.noConfusion hc)
  | .ok a1, .ok a2 =>
    if h : a1 = a2 then .isTrue (by rw [h])
    else .isFalse (fun hc => by cases hc; exact h rfl)

instance {ε α : Type} [DecidableEq ε] [DecidableEq α] : DecidableEq (Except ε α) :=
  exceptDecEq

/-- Map a fallible function over a list, stopping at the first error. -/
def mapExcept {ε α β : Type} (f : α → Except ε β) : List α → Except ε (List β)
  | [] => .ok []
  | x :: xs =>
    match f x with
    | .error e => .error e
    | .ok y =>
      match mapExcept f xs with
      | .error e => .error e
      | .ok ys => .ok (y :: ys)

/-- Map a partial function over a list, `none` if any element fails. -/
def mapOption {α β : Type} (f : α → Option β) : List α → Option (List β)
  | [] => some []
  | x :: xs =>
    match f x with
    | none => none
    | some y =>
      match mapOption f xs with
      | none => none
      | some ys => some (y :: ys)

/-- Modelled from the spec: `text2lines` from `vrplib/parse/parse_utils.py`
is not under `src/`.  Section 4.6 step 1: split the text into lines,
trim each, and discard blank lines. -/
def text2lines (text : String) : List (List Char) :=
  ((splitOnP (fun c => c == '\n') text.toList).map trim).filter (fun l => l ≠ [])

/-! ## Solution decoder, from `src/vrplib/parse/parse_solution.py` -/

/-- Python runtime errors that `parse_solution` can raise. -/
inductive PyErr where
  | indexError
  | valueError
  | attributeError
deriving DecidableEq, Repr

/-- An entry of the solution dict: the routes list or an inferred scalar. -/
inductive SolEntry where
  | routeList (rs : List (List Int))
  | scalar (v : Value)
deriving DecidableEq, Repr

/-- The solution mapping, insertion ordered like a Python dict. -/
def SolMap : Type := List (List Char × SolEntry)

/-- The tokens Python iterates in the `Route` branch:
`line.split(":")[1].split(" ")` with empty strings filtered out. -/
def routeTokens (seg : List Char) : List (List Char) :=
  (splitOnP (fun c => c == ' ') seg).filter (fun t => t ≠ [])

/-- `int(...)` over every route token, `ValueError` as `none`. -/
def routeInts (seg : List Char) : Option (List Int) :=
  mapOption (fun t => parseIntTok (trim t)) (routeTokens seg)

/-- `solution["routes"].append(route)`: an `AttributeError` if the
`routes` key was overwritten with a scalar. -/
def appendRoute (sol : SolMap) (r : List Int) : Except PyErr SolMap :=
  match lookA ("routes".toList) sol with
  | some (.routeList rs) => .ok (upsertA ("routes".toList) (.routeList (rs ++ [r])) sol)
  | _ => .error .attributeError

/-- One iteration of the `parse_solution` loop over a non-blank line.
The `Route` branch indexes `line.split(":")[1]`, which raises
`IndexError` when the line has no colon. -/
def stepSolution (sol : SolMap) (line : List Char) : Except PyErr SolMap :=
  if hasSubstr ("Route".toList) line then
    match (splitOnP (fun c => c == ':') line)[1]? with
    | none => .error .indexError
    | some seg =>
      match routeInts seg with
      | none => .error .valueError
      | some r => appendRoute sol r
  else if line.contains ':' || line.contains ' ' then
    let sep : Char := if line.contains ':' then ':' else ' '
    match splitFirst sep line with
    | some (k, v) => .ok (upsertA (toLowerL (trim k)) (.scalar (infer_type (trim v))) sol)
    | none => .ok sol
  else
    .ok sol

/-- Run `stepSolution` over all lines. -/
def runSolution (sol : SolMap) : List (List Char) → Except PyErr SolMap
  | [] => .ok sol
  | l :: rest =>
    match stepSolution sol l with
    | .error e => .error e
    | .ok sol2 => runSolution sol2 rest

/-- `parse_solution` from `src/vrplib/parse/parse_solution.py`: start from
`{"routes": []}` and process every non-blank line. -/
def parse_solution (text : String) : Except PyErr SolMap :=
  runSolution [(("routes".toList), .routeList [])] (text2lines text)

/-- The target of `line.split(":")[1]` described positionally: the text
between the first colon and the next colon (to the end of the line when
there is no second colon). -/
def routeSegment (line : List Char) : Option (List Char) :=
  (splitFirst ':' line).map (fun p => p.2.takeWhile (fun c => !(c == ':')))

/-- Stated from the claim's words (for comparison with the source): split
at the first colon and parse the ENTIRE remainder of the line as
whitespace-separated integers. -/
def routeOfLineClaimed (line : List Char) : Option (List Int) :=
  (splitFirst ':' line).bind (fun p => mapOption parseIntTok (tokensWS p.2))

/-! ## Instance decoder

`vrplib/parse/parse_vrplib.py` is not under `src/`; every definition in
this part is modelled from the specification (sections 4.2-4.6) and is
checked against the expectations recorded in
`src/tests/parse/test_parse_vrplib.py`. -/

/-- Modelled from the spec (4.2): a line is a section header iff, after
trimming, it ends with the literal suffix `_SECTION`. -/
def isSectionHeader (l : List Char) : Bool :=
  ("_SECTION".toList).isSuffixOf (trim l)

/-- Modelled from the spec (4.2): the `EOF` sentinel line. -/
def isEOFLine (l : List Char) : Bool :=
  trim l == "EOF".toList

/-- Drop a suffix when present. -/
def removeSuffixL (suf l : List Char) : List Char :=
  if suf.isSuffixOf l then l.take (l.length - suf.length) else l

/-- Modelled from the spec (4.4): a section's output key is its header
lower-cased with the `_section` suffix removed. -/
def outputKeyOfHeader (h : List Char) : List Char :=
  removeSuffixL ("_section".toList) (toLowerL (trim h))

/-- State of the grouping loop: `done` is set by the `EOF` sentinel,
`cur` holds the open section (rows in reverse), `specs` and `secs`
accumulate in reverse. -/
structure GState where
  done : Bool
  specs : List (List Char)
  secs : List (List (List Char))
  cur : Option (List (List Char))

/-- One grouping step (spec 4.2): the `EOF` line stops processing, a
header opens a new section, any other line joins the open section or,
before the first header, the specification block. -/
def groupStep (st : GState) (l : List Char) : GState :=
  if st.done then st
  else if isEOFLine l then { st with done := true }
  else if isSectionHeader l then
    { st with
      secs := (match st.cur with
        | none => st.secs
        | some c => c.reverse :: st.secs),
      cur := some [l] }
  else
    match st.cur with
    | none => { st with specs := l :: st.specs }
    | some c => { st with cur := some (l :: c) }

/-- Close the open section and restore file order. -/
def groupFinish (st : GState) : List (List Char) × List (List (List Char)) :=
  (st.specs.reverse,
    (match st.cur with
      | none => st.secs
      | some c => c.reverse :: st.secs).reverse)

/-- Modelled from the spec (4.2): split the lines into the leading
specification block and the ordered section blocks, each block headed by
its `_SECTION` line; the `EOF` sentinel terminates the scan. -/
def group_specifications_and_sections (ls : List (List Char)) :
    List (List Char) × List (List (List Char)) :=
  groupFinish (ls.foldl groupStep ⟨false, [], [], none⟩)

/-- Declarative section blocks, following the claim's words: each block
runs from its header up to, but not including, the next header. -/
def chunkSections : List (List Char) → List (List (List Char))
  | [] => []
  | h :: rest =>
    (h :: rest.takeWhile (fun l => !isSectionHeader l)) ::
      chunkSections (rest.dropWhile (fun l => !isSectionHeader l))
termination_by ls => ls.length
decreasing_by
  have hle : ∀ (l : List (List Char)),
      (l.dropWhile (fun x => !isSectionHeader x)).length ≤ l.length := by
    intro l
    induction l with
    | nil => simp [List.dropWhile]
    | cons x xs ih =>
      simp only [List.dropWhile]
      split
      · exact Nat.le_succ_of_le ih
      · exact Nat.le_refl _
  simp only [List.length_cons]
  exact Nat.lt_succ_of_le (hle rest)

/-- Modelled from the spec (4.6 step 3): scan the lines with a one-way
`BeforeSections → InSections` flag; once a section header has been seen,
a line that looks like a specification (contains a colon and is not a
header) is rejected.  The `EOF` sentinel stops the scan. -/
def validLines : Bool → List (List Char) → Bool
  | _, [] => true
  | seen, l :: rest =>
    if isEOFLine l then true
    else if isSectionHeader l then validLines true rest
    else if seen && l.contains ':' then false
    else validLines seen rest

/-- Modelled from the spec (4.3): fail when the line has no colon, split
at the FIRST colon, trim both sides, lower-case the key and infer the
value. -/
def parse_specification (l : List Char) : Except String (List Char × Value) :=
  match splitFirst ':' l with
  | none => .error "missing colon in specification line"
  | some (k, v) => .ok (toLowerL (trim k), infer_type (trim v))

/-- A decoded section value: scalar, vector, matrix, 0-based index list
or jagged list. -/
inductive Data where
  | value (v : Value)
  | vector (xs : List Value)
  | matrix (rows : List (List Value))
  | intList (xs : List Int)
  | jagged (rows : List (List Value))
deriving DecidableEq, Repr

/-- The instance mapping, insertion ordered like a Python dict. -/
def Mapping : Type := List (List Char × Data)

/-- The integer carried by a single-integer depot row. -/
def depotRowInt (r : List Char) : Option Int :=
  (tokensWS r).head?.bind parseIntTok

/-- Modelled from the spec (4.4): shape a section's rows by its name.
`depot` reads single integers up to the sentinel `-1` and shifts them to
0-based; `vehicles_allowed_clients` drops each row's leading index and
keeps the rest as a jagged list; `edge_weight` reads the full matrix
when `edge_weight_format` is `FULL_MATRIX` (other layouts are the spec's
open question and are rejected); every other section drops the leading
index column and yields a vector when one value per row remains,
otherwise the matrix of rows (as the source's tests require for
`node_coord` and `time_window`). -/
def parse_section_data (key : List Char) (rows : List (List Char))
    (known : Mapping) : Except String Data :=
  if key = "depot".toList then
    match mapOption depotRowInt rows with
    | none => .error "invalid depot section"
    | some xs =>
      .ok (.intList ((xs.takeWhile (fun x => x ≠ -1)).map (fun x => x - 1)))
  else if key = "vehicles_allowed_clients".toList then
    .ok (.jagged (rows.map (fun r => ((tokensWS r).drop 1).map infer_type)))
  else if key = "edge_weight".toList then
    match lookA ("edge_weight_format".toList) known with
    | some (.value (.str f)) =>
      if f = "FULL_MATRIX".toList then
        .ok (.matrix (rows.map (fun r => (tokensWS r).map infer_type)))
      else .error "unsupported edge weight format"
    | _ => .error "missing edge weight format"
  else
    let vals := rows.map (fun r => ((tokensWS r).drop 1).map infer_type)
    if vals.all (fun v => v.length == 1) then
      .ok (.vector (vals.map (fun v => v.headD (.str []))))
    else
      .ok (.matrix vals)

/-- The key/value pair of one section: its output key with the shaped
rows. -/
def parse_section (block : List (List Char)) (known : Mapping) :
    Except String (List Char × Data) :=
  match block with
  | [] => .error "empty section block"
  | h :: rows =>
    (parse_section_data (outputKeyOfHeader h) rows known).map
      (fun d => (outputKeyOfHeader h, d))

/-- Insert every section into the mapping, rejecting a key that is
already present (spec 4.6 step 6: a quantity may not be given twice). -/
def runSections (m : Mapping) : List (List (List Char)) → Except String Mapping
  | [] => .ok m
  | b :: rest =>
    match parse_section b m with
    | .error e => .error e
    | .ok (k, d) =>
      if hasKey k m then .error "key given both as specification and section"
      else runSections (upsertA k d m) rest

/-- Insert parsed specification entries in file order. -/
def buildSpecs (ps : List (List Char × Value)) : Mapping :=
  ps.foldl (fun m kv => upsertA kv.1 (.value kv.2) m) []

/-- Modelled from the spec (4.6 steps 1-6): split into non-blank trimmed
lines, validate the ordering, group, parse the specification block,
shape every section, and reject duplicate keys.  Every failure here is a
`FormatError`. -/
def parse_vrplib_core (text : String) : Except String Mapping :=
  let ls := text2lines text
  if validLines false ls then
    let g := group_specifications_and_sections ls
    match mapExcept parse_specification g.1 with
    | .error e => .error e
    | .ok ps => runSections (buildSpecs ps) g.2
  else .error "specification after section"

/-- Squared Euclidean distance of two rational points. -/
def dist2 (a b : ℚ × ℚ) : ℚ :=
  (a.1 - b.1) ^ 2 + (a.2 - b.2) ^ 2

/-- Bounded upward search for the integer square root: starting from a
lower bound `s`, advance while `(s + 1)^2` still fits below `n`. -/
def natSqrtGo (n : Nat) : Nat → Nat → Nat
  | 0, s => s
  | fuel + 1, s => if (s + 1) * (s + 1) ≤ n then natSqrtGo n fuel (s + 1) else s

/-- Integer square root by structural recursion (kernel-computable). -/
def natSqrt (n : Nat) : Nat :=
  natSqrtGo n n 0

/-- `⌊√q⌋` for a nonnegative rational, computed as the integer square
root of `⌊q⌋`. -/
def floorSqrtQ (q : ℚ) : Int :=
  (natSqrt (Int.toNat ⌊q⌋) : Int)

/-- `FLOOR_2D`: the Euclidean distance rounded down. -/
def floorDist2D (a b : ℚ × ℚ) : Int :=
  floorSqrtQ (dist2 a b)

/-- `CEIL_2D`: the Euclidean distance rounded up. -/
def ceilDist2D (a b : ℚ × ℚ) : Int :=
  let s := floorSqrtQ (dist2 a b)
  if (s : ℚ) ^ 2 = dist2 a b then s else s + 1

/-- `EUC_2D` / `EXACT_2D`: the Euclidean distance rounded to nearest
(ties up). -/
def roundDist2D (a b : ℚ × ℚ) : Int :=
  (floorSqrtQ (4 * dist2 a b) + 1) / 2

/-- Modelled from the spec (4.5): dispatch on the metric name; an
unrecognized name is an `UnsupportedMetricError`.  The historically
defined geographic and pseudo-Euclidean metrics are outside every claim
and are modelled as unrecognized. -/
def metricOf (nm : List Char) : Option ((ℚ × ℚ) → (ℚ × ℚ) → Int) :=
  if nm = "FLOOR_2D".toList then some floorDist2D
  else if nm = "CEIL_2D".toList then some ceilDist2D
  else if nm = "EUC_2D".toList then some roundDist2D
  else if nm = "EXACT_2D".toList then some roundDist2D
  else none

/-- A numeric cell of the node-coordinate matrix. -/
def valueToRat : Value → Option ℚ
  | .int i => some (i : ℚ)
  | .float q => some q
  | .str _ => none

/-- Read the decoded `node_coord` matrix as 2-D rational points. -/
def coordsOfMatrix (cm : List (List Value)) : Option (List (ℚ × ℚ)) :=
  mapOption
    (fun row => match row with
      | [x, y] => (valueToRat x).bind (fun a => (valueToRat y).map (fun b => (a, b)))
      | _ => none)
    cm

/-- The synthesized pairwise matrix for a metric `f`. -/
def synthMatrix (f : (ℚ × ℚ) → (ℚ × ℚ) → Int) (coords : List (ℚ × ℚ)) :
    List (List Value) :=
  coords.map (fun p => coords.map (fun q => Value.int (f p q)))

/-- Errors of the instance decoder (spec section 7). -/
inductive VrplibError where
  | formatError (msg : String)
  | unsupportedMetric (msg : String)
deriving DecidableEq, Repr

/-- Modelled from the spec (4.5, 4.6 step 7): run the core decoder; when
no `edge_weight` key was produced, `node_coord` is present and the
caller did not disable it, synthesize the pairwise matrix from the
metric named by `edge_weight_type`. -/
def parse_vrplib (text : String) (computeEdgeWeights : Bool) :
    Except VrplibError Mapping :=
  match parse_vrplib_core text with
  | .error e => .error (.formatError e)
  | .ok m =>
    if computeEdgeWeights && !hasKey ("edge_weight".toList) m
        && hasKey ("node_coord".toList) m then
      match lookA ("node_coord".toList) m with
      | some (.matrix cm) =>
        match coordsOfMatrix cm with
        | none => .error (.formatError "invalid node coordinates")
        | some coords =>
          match lookA ("edge_weight_type".toList) m with
          | some (.value (.str nm)) =>
            match metricOf nm with
            | none => .error (.unsupportedMetric (String.mk nm))
            | some f =>
              .ok (upsertA ("edge_weight".toList) (.matrix (synthMatrix f coords)) m)
          | _ => .error (.unsupportedMetric "missing edge weight type")
      | _ => .error (.formatError "node_coord is not a matrix")
    else .ok m

/-- A small concrete instance used to witness the edge-weight claims:
`FLOOR_2D` metric over the nodes `(0, 0)` and `(3, 4)`. -/
def ewText : String :=
  "EDGE_WEIGHT_TYPE: FLOOR_2D\nNODE_COORD_SECTION\n1 0 0\n2 3 4"

/-- The mapping the core decoder produces for `ewText`. -/
def ewMap : Mapping :=
  [("edge_weight_type".toList, .value (.str ("FLOOR_2D".toList))),
   ("node_coord".toList, .matrix [[.int 0, .int 0], [.int 3, .int 4]])]

/-- The decoded node coordinates of `ewText`. -/
def ewCoords : List (ℚ × ℚ) := [(0, 0), (3, 4)]

/-! ## Splitting lemmas -/

/-- `splitOnP` always yields at least one chunk. -/
theorem splitOnP_ne_nil (p : Char → Bool) (l : List Char) : splitOnP p l ≠ [] := by
  induction l with
  | nil => simp [splitOnP]
  | cons x xs ih =>
    simp only [splitOnP]
    split
    · simp
    · match h : splitOnP p xs with
      | [] => exact absurd h ih
      | s :: rest => simp

/-- The first chunk of `splitOnP` is the run before the first separator. -/
theorem splitOnP_head (p : Char → Bool) (l : List Char) :
    (splitOnP p l).head? = some (l.takeWhile (fun c => !p c)) := by
  induction l with
  | nil => simp [splitOnP, List.takeWhile]
  | cons x xs ih =>
    simp only [splitOnP, List.takeWhile]
    by_cases hx : p x
    · simp [hx]
    · simp only [hx, Bool.false_eq_true, if_false, Bool.not_false, if_true]
      match h : splitOnP p xs with
      | [] => exact absurd h (splitOnP_ne_nil p xs)
      | s :: rest =>
        rw [h] at ih
        simp only [List.head?] at ih ⊢
        simp only [Option.some_inj] at ih
        simp [ih]

/-- The second chunk of a full split is what stands between the first
separator and the next one, `none` when there is no separator. -/
theorem splitOnP_second (c : Char) (l : List Char) :
    (splitOnP (fun x => x == c) l)[1]? =
      (splitFirst c l).map (fun pr => pr.2.takeWhile (fun x => !(x == c))) := by
  induction l with
  | nil => simp [splitOnP, splitFirst]
  | cons x xs ih =>
    simp only [splitOnP, splitFirst]
    by_cases hx : x = c
    · subst hx
      simp only [beq_self_eq_true, if_true, if_pos rfl]
      have hh := splitOnP_head (fun y => y == x) xs
      match h : splitOnP (fun y => y == x) xs with
      | [] => exact absurd h (splitOnP_ne_nil _ xs)
      | s :: rest =>
        rw [h] at hh
        simp only [List.head?, Option.some_inj] at hh
        simp [hh]
    · have hbx : (x == c) = false := by simp [hx]
      simp only [hbx, Bool.false_eq_true, if_false, if_neg hx]
      match h : splitOnP (fun y => y == c) xs with
      | [] => exact absurd h (splitOnP_ne_nil _ xs)
      | s :: rest =>
        rw [h] at ih
        cases hf : splitFirst c xs with
        | none => rw [hf] at ih; simpa using ih
        | some pr => rw [hf] at ih; simpa using ih

/-- Without the separator, a full split returns the line whole. -/
theorem splitOnP_of_not_contains (c : Char) (l : List Char)
    (h : l.contains c = false) : splitOnP (fun x => x == c) l = [l] := by
  induction l with
  | nil => simp [splitOnP]
  | cons x xs ih =>
    simp only [List.contains_cons, Bool.or_eq_false_iff] at h
    have hx : (x == c) = false := by
      cases hcx : c == x with
      | false =>
        cases hxc : x == c with
        | false => rfl
        | true => simp only [beq_iff_eq] at hxc; subst hxc; simp at hcx
      | true => simp [hcx] at h
    simp only [splitOnP, hx, Bool.false_eq_true, if_false]
    rw [ih h.2]

/-- Splitting at the first separator, described positionally. -/
theorem splitFirst_eq_take_drop (c : Char) (l : List Char)
    (h : l.contains c = true) :
    splitFirst c l =
      some (l.takeWhile (fun x => !(x == c)),
            (l.dropWhile (fun x => !(x == c))).drop 1) := by
  induction l with
  | nil => simp at h
  | cons x xs ih =>
    by_cases hx : x = c
    · subst hx
      simp [splitFirst, List.takeWhile, List.dropWhile]
    · have hbx : (x == c) = false := by simp [hx]
      have hxs : xs.contains c = true := by
        simp only [List.contains_cons] at h
        cases hcx : c == x with
        | false => simpa [hcx] using h
        | true => simp only [beq_iff_eq] at hcx; subst hcx; simp at hx
      simp only [splitFirst, if_neg hx, List.takeWhile, List.dropWhile, hbx,
        Bool.not_false, if_true, Bool.false_eq_true]
      rw [ih hxs]
      simp

/-! ## Claim theorems: solution decoder -/

/-- C9: decoding the empty text with `parse_vrplib` returns the empty
mapping, for either value of `compute_edge_weights`, and raises no
error. -/
theorem claim_c9_empty_text :
    parse_vrplib "" true = .ok [] ∧ parse_vrplib "" false = .ok [] := by
  constructor <;> rfl

/-- C10: a non-blank line containing the substring `Route` but no colon
makes `parse_solution` fail with an out-of-bounds index error (the
`Route` branch indexes `line.split(":")[1]` unguarded); in particular
the single line `Route 1 2 3` raises `IndexError`. -/
theorem claim_c10_route_without_colon :
    (∀ (sol : SolMap) (line : List Char),
        hasSubstr ("Route".toList) line = true → line.contains ':' = false →
        stepSolution sol line = .error .indexError)
    ∧ parse_solution "Route 1 2 3" = .error .indexError := by
  constructor
  · intro sol line h1 h2
    simp only [stepSolution, h1, if_true]
    rw [splitOnP_of_not_contains ':' line h2]
    rfl
  · rfl

/-- C10 witness: the universal part applied to the concrete line
`Route 1 2 3`. -/
theorem claim_c10_witness :
    hasSubstr ("Route".toList) ("Route 1 2 3".toList) = true
    ∧ ("Route 1 2 3".toList).contains ':' = false
    ∧ stepSolution [(("routes".toList), .routeList [])] ("Route 1 2 3".toList) =
        .error .indexError :=
  ⟨by decide, by decide,
    claim_c10_route_without_colon.1 _ _ (by decide) (by decide)⟩

/-- C3 counterexample: on the line `Route #1: 1 2:3` the decoder keeps
only the text between the first and second colon, appending the route
`[1, 2]`, while the claim's reading (parse the ENTIRE remainder after
the first colon as whitespace-separated integers) cannot produce that
route at all. -/
theorem claim_c3_counterexample :
    parse_solution "Route #1: 1 2:3" =
      .ok [(("routes".toList), .routeList [[1, 2]])]
    ∧ routeOfLineClaimed ("Route #1: 1 2:3".toList) = none
    ∧ routeOfLineClaimed ("Route #1: 1 2:3".toList) ≠ some [1, 2] := by
  refine ⟨rfl, rfl, ?_⟩
  decide

/-- C3 (amended): on a non-blank line containing `Route`,
`parse_solution` splits the line at every colon and parses the segment
between the first and the second colon (to the end of the line when
there is no second colon) as space-separated integers, appending them
as one route — `IndexError` when the line has no colon; and decoding
`Route #1: 1 2 3` followed by `Cost: 100` yields exactly
`{routes: [[1, 2, 3]], cost: 100}`. -/
theorem claim_c3_route_segment :
    (∀ (sol : SolMap) (line : List Char),
        hasSubstr ("Route".toList) line = true →
        stepSolution sol line =
          match routeSegment line with
          | none => .error .indexError
          | some seg =>
            match routeInts seg with
            | none => .error .valueError
            | some r => appendRoute sol r)
    ∧ parse_solution "Route #1: 1 2 3\nCost: 100" =
        .ok [(("routes".toList), .routeList [[1, 2, 3]]),
             (("cost".toList), .scalar (.int 100))] := by
  constructor
  · intro sol line h1
    simp only [stepSolution, h1, if_true, routeSegment]
    rw [splitOnP_second ':' line]
  · rfl

/-- C3 witness: the route branch applied to the concrete line
`Route #1: 1 2 3` on the initial solution state. -/
theorem claim_c3_witness :
    hasSubstr ("Route".toList) ("Route #1: 1 2 3".toList) = true
    ∧ stepSolution [(("routes".toList), .routeList [])] ("Route #1: 1 2 3".toList) =
        match routeSegment ("Route #1: 1 2 3".toList) with
        | none => .error .indexError
        | some seg =>
          match routeInts seg with
          | none => .error .valueError
          | some r => appendRoute [(("routes".toList), .routeList [])] r :=
  ⟨by decide, claim_c3_route_segment.1 _ _ (by decide)⟩

/-! ## Claim theorems: specification lines and sections -/

/-- C4: a specification line with a colon is split at the FIRST colon
only, both sides are trimmed, the key lower-cased and the value
inferred; `CAPACITY: 30` gives the integer 30, `CAPACITY: 30.5` the
float 30.5, `COMMENT: BKS:1` the string `BKS:1`, and a value whose
trimmed text parses as an integer is never reported as float or
string. -/
theorem claim_c4_parse_specification :
    (∀ l : List Char, l.contains ':' = true →
        parse_specification l =
          .ok (toLowerL (trim (l.takeWhile (fun c => !(c == ':')))),
               infer_type (trim ((l.dropWhile (fun c => !(c == ':'))).drop 1))))
    ∧ parse_specification ("CAPACITY: 30".toList) =
        .ok ("capacity".toList, .int 30)
    ∧ parse_specification ("CAPACITY: 30.5".toList) =
        .ok ("capacity".toList, .float (30.5 : ℚ))
    ∧ parse_specification ("COMMENT: BKS:1".toList) =
        .ok ("comment".toList, .str ("BKS:1".toList))
    ∧ (∀ (s : List Char) (i : Int),
        parseIntTok (trim s) = some i → infer_type s = .int i) := by
  refine ⟨?_, by decide, ?_, by decide, ?_⟩
  · intro l h
    simp only [parse_specification]
    rw [splitFirst_eq_take_drop ':' l h]
  · rw [show (30.5 : ℚ) = mkRat 305 10 from by rw [Rat.mkRat_eq_div]; norm_num]
    decide
  · intro s i h
    simp only [infer_type, h]

/-- C4 witness: the universal split description applied to the line
`COMMENT: BKS:1`, together with the integer-preference clause at the
token `30`. -/
theorem claim_c4_witness :
    ("COMMENT: BKS:1".toList).contains ':' = true
    ∧ parse_specification ("COMMENT: BKS:1".toList) =
        .ok (toLowerL (trim (("COMMENT: BKS:1".toList).takeWhile (fun c => !(c == ':')))),
             infer_type (trim ((("COMMENT: BKS:1".toList).dropWhile (fun c => !(c == ':'))).drop 1)))
    ∧ infer_type (" 30 ".toList) = .int 30 :=
  ⟨by decide, claim_c4_parse_specification.1 _ (by decide),
    claim_c4_parse_specification.2.2.2.2 _ 30 (by decide)⟩

/-- C6: a `DEPOT_SECTION` whose rows are single integers is read up to
the sentinel `-1` when present, otherwise to the end of the block, each
kept value shifted to a 0-based index; rows `1 2 3 -1` decode to
`[0, 1, 2]` and the single row `4` decodes to `[3]`. -/
theorem claim_c6_depot_section :
    (∀ (rows : List (List Char)) (xs : List Int) (known : Mapping),
        mapOption depotRowInt rows = some xs →
        parse_section (("DEPOT_SECTION".toList) :: rows) known =
          .ok ("depot".toList,
               .intList ((xs.takeWhile (fun x => x ≠ -1)).map (fun x => x - 1))))
    ∧ parse_section (["DEPOT_SECTION", "1", "2", "3", "-1"].map String.toList) [] =
        .ok ("depot".toList, .intList [0, 1, 2])
    ∧ parse_section (["DEPOT_SECTION", "4"].map String.toList) [] =
        .ok ("depot".toList, .intList [3]) := by
  refine ⟨?_, by decide, by decide⟩
  intro rows xs known h
  have hkey : outputKeyOfHeader ("DEPOT_SECTION".toList) = "depot".toList := by decide
  simp only [parse_section, hkey, parse_section_data, h]
  simp [Except.map]

/-- C6 witness: the universal depot description applied to the concrete
rows `1 2 3 -1`. -/
theorem claim_c6_witness :
    mapOption depotRowInt (["1", "2", "3", "-1"].map String.toList) =
      some [1, 2, 3, -1]
    ∧ parse_section (("DEPOT_SECTION".toList) :: (["1", "2", "3", "-1"].map String.toList)) [] =
        .ok ("depot".toList,
             .intList ((([1, 2, 3, -1] : List Int).takeWhile (fun x => x ≠ -1)).map (fun x => x - 1))) :=
  ⟨by decide, claim_c6_depot_section.1 _ [1, 2, 3, -1] [] (by decide)⟩

/-! ## Claim theorems: line grouping -/

/-- After the `EOF` sentinel the grouping loop ignores every line. -/
theorem foldl_groupStep_done :
    ∀ (ls : List (List Char)) (st : GState), st.done = true →
      ls.foldl groupStep st = st := by
  intro ls
  induction ls with
  | nil => intro st _; rfl
  | cons l rest ih =>
    intro st h
    have hstep : groupStep st l = st := by simp [groupStep, h]
    rw [List.foldl_cons, hstep]
    exact ih st h

/-- Grouping with an open section: the open rows extend to the next
header or the `EOF` line, and the remaining lines chunk at headers. -/
theorem group_sec_phase :
    ∀ (ls : List (List Char)) (st : GState) (c : List (List Char)),
      st.done = false → st.cur = some c →
      groupFinish (ls.foldl groupStep st) =
        (st.specs.reverse,
         st.secs.reverse ++
           ((c.reverse ++
              ((ls.takeWhile (fun l => !isEOFLine l)).takeWhile
                (fun l => !isSectionHeader l))) ::
             chunkSections
               ((ls.takeWhile (fun l => !isEOFLine l)).dropWhile
                 (fun l => !isSectionHeader l)))) := by
  intro ls
  induction ls with
  | nil =>
    intro st c _ hc
    simp [groupFinish, hc, chunkSections]
  | cons l rest ih =>
    intro st c hd hc
    by_cases he : isEOFLine l
    · have hstep : groupStep st l = { st with done := true } := by
        simp [groupStep, hd, he]
      rw [List.foldl_cons, hstep, foldl_groupStep_done rest _ rfl]
      simp [groupFinish, hc, he, chunkSections]
    · by_cases hh : isSectionHeader l
      · have hstep : groupStep st l =
            { st with secs := c.reverse :: st.secs, cur := some [l] } := by
          simp [groupStep, hd, he, hh, hc]
        rw [List.foldl_cons, hstep,
          ih { st with secs := c.reverse :: st.secs, cur := some [l] } [l] hd rfl]
        simp [he, hh, chunkSections, List.append_assoc]
      · have hstep : groupStep st l = { st with cur := some (l :: c) } := by
          simp [groupStep, hd, he, hh, hc]
        rw [List.foldl_cons, hstep, ih { st with cur := some (l :: c) } (l :: c) hd rfl]
        simp [he, hh, List.append_assoc]

/-- Grouping before the first header: leading lines feed the
specification block, the rest chunks at headers. -/
theorem group_spec_phase :
    ∀ (ls : List (List Char)) (st : GState),
      st.done = false → st.cur = none →
      groupFinish (ls.foldl groupStep st) =
        (st.specs.reverse ++
           ((ls.takeWhile (fun l => !isEOFLine l)).takeWhile
             (fun l => !isSectionHeader l)),
         st.secs.reverse ++
           chunkSections
             ((ls.takeWhile (fun l => !isEOFLine l)).dropWhile
               (fun l => !isSectionHeader l))) := by
  intro ls
  induction ls with
  | nil =>
    intro st _ hc
    simp [groupFinish, hc, chunkSections]
  | cons l rest ih =>
    intro st hd hc
    by_cases he : isEOFLine l
    · have hstep : groupStep st l = { st with done := true } := by
        simp [groupStep, hd, he]
      rw [List.foldl_cons, hstep, foldl_groupStep_done rest _ rfl]
      simp [groupFinish, hc, he, chunkSections]
    · by_cases hh : isSectionHeader l
      · have hstep : groupStep st l = { st with cur := some [l] } := by
          simp [groupStep, hd, he, hh, hc]
        rw [List.foldl_cons, hstep, group_sec_phase rest { st with cur := some [l] } [l] hd rfl]
        simp [he, hh, chunkSections]
      · have hstep : groupStep st l = { st with specs := l :: st.specs } := by
          simp [groupStep, hd, he, hh, hc]
        rw [List.foldl_cons, hstep, ih { st with specs := l :: st.specs } hd hc]
        simp [he, hh, List.append_assoc]

/-- C5: the grouper takes a line for a section header exactly when its
trimmed form ends in `_SECTION` (the `isSectionHeader` test); the lines
before the first header form the specification block, the scan stops at
the `EOF` sentinel (so `EOF` reaches neither output), and the remaining
lines split into blocks running from each header up to, but not
including, the next header, in file order. -/
theorem claim_c5_grouping (ls : List (List Char)) :
    group_specifications_and_sections ls =
      ((ls.takeWhile (fun l => !isEOFLine l)).takeWhile
         (fun l => !isSectionHeader l),
       chunkSections
         ((ls.takeWhile (fun l => !isEOFLine l)).dropWhile
           (fun l => !isSectionHeader l))) := by
  have h := group_spec_phase ls ⟨false, [], [], none⟩ rfl rfl
  simpa [group_specifications_and_sections] using h

/-- C5 witness: the grouper applied to the spec's concrete example —
two specification lines, two two-line sections and an `EOF` line. -/
theorem claim_c5_witness :
    group_specifications_and_sections
      (["NAME : ORTEC-VRPTW-ASYM-00c5356f-d1-n258-k12", "COMMENT : ORTEC",
        "EDGE_WEIGHT_SECTION", "0 1908", "1994 0",
        "TIME_WINDOW_SECTION", "1 0 41340", "2 15600 23100", "EOF"].map String.toList) =
      ((["NAME : ORTEC-VRPTW-ASYM-00c5356f-d1-n258-k12", "COMMENT : ORTEC",
         "EDGE_WEIGHT_SECTION", "0 1908", "1994 0",
         "TIME_WINDOW_SECTION", "1 0 41340", "2 15600 23100", "EOF"].map
           String.toList).takeWhile (fun l => !isEOFLine l) |>.takeWhile
             (fun l => !isSectionHeader l),
       chunkSections
         ((["NAME : ORTEC-VRPTW-ASYM-00c5356f-d1-n258-k12", "COMMENT : ORTEC",
            "EDGE_WEIGHT_SECTION", "0 1908", "1994 0",
            "TIME_WINDOW_SECTION", "1 0 41340", "2 15600 23100", "EOF"].map
              String.toList).takeWhile (fun l => !isEOFLine l) |>.dropWhile
                (fun l => !isSectionHeader l))) :=
  claim_c5_grouping _

/-! ## Claim theorems: ordering validation -/

/-- Once a header has been seen, any later colon-bearing non-header
line (before `EOF`) makes the validation fail. -/
theorem validLines_seen :
    ∀ ls : List (List Char),
      (ls.takeWhile (fun l => !isEOFLine l)).any
        (fun l => !isSectionHeader l && l.contains ':') = true →
      validLines true ls = false := by
  intro ls
  induction ls with
  | nil => intro h; simp at h
  | cons l rest ih =>
    intro h
    by_cases he : isEOFLine l
    · simp [he] at h
    · rw [List.takeWhile_cons,
        if_pos (show (!isEOFLine l) = true by simp [he]),
        List.any_cons, Bool.or_eq_true] at h
      by_cases hh : isSectionHeader l
      · rw [hh, Bool.not_true, Bool.false_and] at h
        simp only [validLines]
        rw [if_neg he, if_pos hh]
        rcases h with h1 | h2
        · exact absurd h1 (by simp)
        · exact ih h2
      · by_cases hcol : l.contains ':'
        · simp only [validLines]
          rw [if_neg he, if_neg hh,
            if_pos (show (true && l.contains ':') = true by rw [Bool.true_and]; exact hcol)]
        · have hcf : l.contains ':' = false := eq_false_of_ne_true hcol
          rw [hcf, Bool.and_false] at h
          simp only [validLines]
          rw [if_neg he, if_neg hh,
            if_neg (show ¬((true && l.contains ':') = true) by rw [Bool.true_and]; exact hcol)]
          rcases h with h1 | h2
          · exact absurd h1 (by simp)
          · exact ih h2

/-- A colon-bearing non-header line after the first header (and before
`EOF`) makes the full validation fail. -/
theorem validLines_after_header :
    ∀ ls : List (List Char),
      ((ls.takeWhile (fun l => !isEOFLine l)).dropWhile
        (fun l => !isSectionHeader l)).any
        (fun l => !isSectionHeader l && l.contains ':') = true →
      validLines false ls = false := by
  intro ls
  induction ls with
  | nil => intro h; simp at h
  | cons l rest ih =>
    intro h
    by_cases he : isEOFLine l
    · simp [he] at h
    · rw [List.takeWhile_cons,
        if_pos (show (!isEOFLine l) = true by simp [he]),
        List.dropWhile_cons] at h
      by_cases hh : isSectionHeader l
      · rw [if_neg (show ¬((!isSectionHeader l) = true) by simp [hh]),
          List.any_cons, Bool.or_eq_true, hh, Bool.not_true, Bool.false_and] at h
        simp only [validLines]
        rw [if_neg he, if_pos hh]
        rcases h with h1 | h2
        · exact absurd h1 (by simp)
        · exact validLines_seen rest h2
      · rw [if_pos (show (!isSectionHeader l) = true by simp [hh])] at h
        simp only [validLines]
        rw [if_neg he, if_neg hh,
          if_neg (show ¬((false && l.contains ':') = true) by simp)]
        exact ih h

/-- C2: a specification-style line (non-header, containing a colon)
after the first section header makes `parse_vrplib` fail with a
`FormatError`, for either option value: the grouping scan never leaves
the in-sections state. -/
theorem claim_c2_spec_after_section (text : String) (cew : Bool)
    (h : (((text2lines text).takeWhile (fun l => !isEOFLine l)).dropWhile
        (fun l => !isSectionHeader l)).any
        (fun l => !isSectionHeader l && l.contains ':') = true) :
    ∃ msg, parse_vrplib text cew = .error (.formatError msg) := by
  have hv := validLines_after_header (text2lines text) h
  refine ⟨"specification after section", ?_⟩
  simp only [parse_vrplib, parse_vrplib_core, hv, Bool.false_eq_true, if_false]

/-- C2 witness: the source's test instance, a `NODE_COORD_SECTION`
followed by the specification lines `NAME: Test` and
`EDGE_WEIGHT_TYPE: EUC_2D`. -/
theorem claim_c2_witness :
    ((((text2lines "NODE_COORD_SECTION\n1  20  20\nNAME: Test\nEDGE_WEIGHT_TYPE: EUC_2D\nEOF").takeWhile
        (fun l => !isEOFLine l)).dropWhile (fun l => !isSectionHeader l)).any
        (fun l => !isSectionHeader l && l.contains ':') = true)
    ∧ ∃ msg,
        parse_vrplib "NODE_COORD_SECTION\n1  20  20\nNAME: Test\nEDGE_WEIGHT_TYPE: EUC_2D\nEOF" true =
          .error (.formatError msg) :=
  ⟨by decide, claim_c2_spec_after_section _ true (by decide)⟩

/-! ## Claim theorems: duplicate keys -/

/-- A member of a successfully mapped list was itself mapped
successfully, into the output list. -/
theorem mapExcept_ok_mem {ε α β : Type} (f : α → Except ε β) :
    ∀ (ls : List α) (ys : List β) (x : α),
      mapExcept f ls = .ok ys → x ∈ ls → ∃ y, f x = .ok y ∧ y ∈ ys := by
  intro ls
  induction ls with
  | nil => intro ys x _ hx; exact absurd hx (List.not_mem_nil x)
  | cons a as ih =>
    intro ys x hok hx
    simp only [mapExcept] at hok
    cases hfa : f a with
    | error e => rw [hfa] at hok; exact absurd hok (by simp)
    | ok y =>
      rw [hfa] at hok
      cases hms : mapExcept f as with
      | error e => rw [hms] at hok; exact absurd hok (by simp)
      | ok ys2 =>
        rw [hms] at hok
        simp only [Except.ok.injEq] at hok
        subst hok
        rcases List.mem_cons.mp hx with h1 | h2
        · subst h1; exact ⟨y, hfa, List.mem_cons_self y ys2⟩
        · obtain ⟨y2, hy2, hmem⟩ := ih ys2 x hms h2
          exact ⟨y2, hy2, List.mem_cons_of_mem y hmem⟩

/-- Upserting a key makes it present. -/
theorem hasKey_upsertA_self {α : Type} (k : List Char) (v : α) :
    ∀ m : List (List Char × α), hasKey k (upsertA k v m) = true := by
  intro m
  induction m with
  | nil => simp [upsertA, hasKey, lookA]
  | cons kv rest ih =>
    obtain ⟨k3, v3⟩ := kv
    by_cases h3 : k = k3
    · subst h3; simp [upsertA, hasKey, lookA]
    · simp only [upsertA, if_neg h3, hasKey, lookA, if_neg h3]
      exact ih

/-- Upserting preserves every present key. -/
theorem hasKey_upsertA {α : Type} (k k2 : List Char) (v : α) :
    ∀ m : List (List Char × α),
      hasKey k m = true → hasKey k (upsertA k2 v m) = true := by
  intro m
  induction m with
  | nil => intro h; simp [hasKey, lookA] at h
  | cons kv rest ih =>
    obtain ⟨k3, v3⟩ := kv
    intro h
    by_cases h23 : k2 = k3
    · subst h23
      simp only [upsertA, if_pos rfl]
      by_cases hk : k = k2
      · subst hk; simp [hasKey, lookA]
      · simp only [hasKey, lookA, if_neg hk] at h ⊢
        exact h
    · simp only [upsertA, if_neg h23]
      by_cases hk : k = k3
      · subst hk; simp [hasKey, lookA]
      · simp only [hasKey, lookA, if_neg hk] at h ⊢
        exact ih h

/-- A key carried by the parsed specification list is present in the
mapping it builds (from any starting mapping). -/
theorem hasKey_buildSpecs_aux (k : List Char) (v : Value) :
    ∀ (ps : List (List Char × Value)) (m : Mapping),
      ((k, v) ∈ ps ∨ hasKey k m = true) →
      hasKey k (ps.foldl (fun m kv => upsertA kv.1 (.value kv.2) m) m) = true := by
  intro ps
  induction ps with
  | nil =>
    intro m h
    rcases h with h1 | h2
    · exact absurd h1 (List.not_mem_nil _)
    · simpa using h2
  | cons p ps2 ih =>
    obtain ⟨k1, v1⟩ := p
    intro m h
    rw [List.foldl_cons]
    apply ih
    rcases h with h1 | h2
    · rcases List.mem_cons.mp h1 with h3 | h4
      · right
        obtain ⟨hk, hv⟩ := Prod.mk.injEq .. ▸ h3
        cases h3
        exact hasKey_upsertA_self k (Data.value v) m
      · exact Or.inl h4
    · exact Or.inr (hasKey_upsertA k k1 (Data.value v1) m h2)

/-- The key returned by `parse_section` is the block header's output
key. -/
theorem parse_section_key (h : List Char) (rows : List (List Char))
    (m : Mapping) (k : List Char) (d : Data)
    (hp : parse_section (h :: rows) m = .ok (k, d)) :
    k = outputKeyOfHeader h := by
  simp only [parse_section] at hp
  cases hd : parse_section_data (outputKeyOfHeader h) rows m with
  | error e => rw [hd] at hp; exact absurd hp (by simp [Except.map])
  | ok d2 =>
    rw [hd] at hp
    simp only [Except.map, Except.ok.injEq, Prod.mk.injEq] at hp
    exact hp.1.symm

/-- Processing the sections fails whenever some block's output key is
already present in the mapping. -/
theorem runSections_err :
    ∀ (secs : List (List (List Char))) (m : Mapping) (k : List Char),
      hasKey k m = true →
      (∃ b ∈ secs, ∃ h rows, b = h :: rows ∧ outputKeyOfHeader h = k) →
      ∃ e, runSections m secs = .error e := by
  intro secs
  induction secs with
  | nil =>
    rintro m k hk ⟨b, hb, _⟩
    exact absurd hb (List.not_mem_nil b)
  | cons b rest ih =>
    rintro m k hk ⟨b2, hb2, hh, rows, hbeq, hkey⟩
    simp only [runSections]
    cases hp : parse_section b m with
    | error e => exact ⟨e, rfl⟩
    | ok kd =>
      obtain ⟨k2, d⟩ := kd
      by_cases hdup : hasKey k2 m
      · refine ⟨"key given both as specification and section", ?_⟩
        show (if hasKey k2 m = true then
            Except.error "key given both as specification and section"
          else runSections (upsertA k2 d m) rest) =
          Except.error "key given both as specification and section"
        rw [if_pos hdup]
      · rcases List.mem_cons.mp hb2 with hb3 | hb4
        · subst hb3
          rw [hbeq] at hp
          have hk2 := parse_section_key hh rows m k2 d hp
          rw [hk2, hkey] at hdup
          exact absurd hk hdup
        · have hk3 : hasKey k (upsertA k2 d m) = true := hasKey_upsertA k k2 d m hk
          obtain ⟨e, he⟩ := ih (upsertA k2 d m) k hk3 ⟨b2, hb4, hh, rows, hbeq, hkey⟩
          refine ⟨e, ?_⟩
          show (if hasKey k2 m = true then
              Except.error "key given both as specification and section"
            else runSections (upsertA k2 d m) rest) = Except.error e
          rw [if_neg hdup]
          exact he

/-- C1: when some output key is produced both by a specification line
and by a section block, `parse_vrplib` fails with a `FormatError`
instead of returning a mapping, for either option value. -/
theorem claim_c1_spec_and_section (text : String) (cew : Bool)
    (hyp : ∃ (k : List Char) (l : List Char) (v : Value)
        (h : List Char) (rows : List (List Char)),
        l ∈ (group_specifications_and_sections (text2lines text)).1 ∧
        parse_specification l = .ok (k, v) ∧
        (h :: rows) ∈ (group_specifications_and_sections (text2lines text)).2 ∧
        outputKeyOfHeader h = k) :
    ∃ msg, parse_vrplib text cew = .error (.formatError msg) := by
  obtain ⟨k, l, v, hh, rows, hl, hpl, hsec, hkey⟩ := hyp
  have hcore : ∃ e, parse_vrplib_core text = .error e := by
    simp only [parse_vrplib_core]
    by_cases hv : validLines false (text2lines text)
    · rw [if_pos hv]
      cases hm : mapExcept parse_specification
          (group_specifications_and_sections (text2lines text)).1 with
      | error e => exact ⟨e, rfl⟩
      | ok ps =>
        obtain ⟨p, hfp, hpmem⟩ :=
          mapExcept_ok_mem parse_specification _ ps l hm hl
        rw [hpl] at hfp
        simp only [Except.ok.injEq] at hfp
        subst hfp
        have hk : hasKey k (buildSpecs ps) = true := by
          simpa [buildSpecs] using
            hasKey_buildSpecs_aux k v ps [] (Or.inl hpmem)
        exact runSections_err _ (buildSpecs ps) k hk
          ⟨hh :: rows, hsec, hh, rows, rfl, hkey⟩
    · exact ⟨_, by rw [if_neg hv]⟩
  obtain ⟨e, he⟩ := hcore
  exact ⟨e, by simp only [parse_vrplib, he]⟩

/-- C1 witness: the source's test instance, a `SERVICE_TIME: 10`
specification line together with a `SERVICE_TIME_SECTION` block. -/
theorem claim_c1_witness :
    ("SERVICE_TIME: 10".toList ∈
        (group_specifications_and_sections
          (text2lines "SERVICE_TIME: 10\nSERVICE_TIME_SECTION\n1    20\n2    20")).1)
    ∧ parse_specification ("SERVICE_TIME: 10".toList) =
        .ok ("service_time".toList, .int 10)
    ∧ (("SERVICE_TIME_SECTION".toList :: ["1    20".toList, "2    20".toList]) ∈
        (group_specifications_and_sections
          (text2lines "SERVICE_TIME: 10\nSERVICE_TIME_SECTION\n1    20\n2    20")).2)
    ∧ outputKeyOfHeader ("SERVICE_TIME_SECTION".toList) = "service_time".toList
    ∧ ∃ msg,
        parse_vrplib "SERVICE_TIME: 10\nSERVICE_TIME_SECTION\n1    20\n2    20" true =
          .error (.formatError msg) :=
  ⟨by decide, by decide, by decide, by decide,
    claim_c1_spec_and_section _ true
      ⟨"service_time".toList, "SERVICE_TIME: 10".toList, .int 10,
        "SERVICE_TIME_SECTION".toList, ["1    20".toList, "2    20".toList],
        by decide, by decide, by decide, by decide⟩⟩

/-! ## Claim theorems: edge-weight synthesis -/

/-- The search result stays below its bound. -/
theorem natSqrtGo_le (n : Nat) :
    ∀ (fuel s : Nat), s * s ≤ n → natSqrtGo n fuel s * natSqrtGo n fuel s ≤ n := by
  intro fuel
  induction fuel with
  | zero => intro s h; exact h
  | succ f ih =>
    intro s h
    simp only [natSqrtGo]
    by_cases hc : (s + 1) * (s + 1) ≤ n
    · rw [if_pos hc]; exact ih (s + 1) hc
    · rw [if_neg hc]; exact h

/-- With enough fuel the search result's successor overshoots. -/
theorem natSqrtGo_lt (n : Nat) :
    ∀ (fuel s : Nat), n ≤ fuel + s →
      n < (natSqrtGo n fuel s + 1) * (natSqrtGo n fuel s + 1) := by
  intro fuel
  induction fuel with
  | zero =>
    intro s h
    simp only [natSqrtGo]
    calc n ≤ s := by simpa using h
    _ < s + 1 := Nat.lt_succ_self s
    _ ≤ (s + 1) * (s + 1) := Nat.le_mul_of_pos_left _ (Nat.succ_pos s)
  | succ f ih =>
    intro s h
    simp only [natSqrtGo]
    by_cases hc : (s + 1) * (s + 1) ≤ n
    · rw [if_pos hc]
      exact ih (s + 1) (by omega)
    · rw [if_neg hc]
      omega

/-- `natSqrt` is the integer square root: lower bound. -/
theorem natSqrt_le (n : Nat) : natSqrt n * natSqrt n ≤ n :=
  natSqrtGo_le n n 0 (Nat.zero_le n)

/-- `natSqrt` is the integer square root: upper bound. -/
theorem natSqrt_lt (n : Nat) : n < (natSqrt n + 1) * (natSqrt n + 1) :=
  natSqrtGo_lt n n 0 (by omega)

/-- `floorSqrtQ` computes the floor of the real square root of a
nonnegative rational. -/
theorem floorSqrtQ_eq_floor_sqrt (q : ℚ) (hq : 0 ≤ q) :
    floorSqrtQ q = ⌊Real.sqrt ((q : ℝ))⌋ := by
  have hfq : (0 : ℤ) ≤ ⌊q⌋ := Int.floor_nonneg.mpr hq
  have htn : ((Int.toNat ⌊q⌋ : ℤ)) = ⌊q⌋ := Int.toNat_of_nonneg hfq
  set s : ℕ := natSqrt (Int.toNat ⌊q⌋) with hs
  have h1n : s * s ≤ Int.toNat ⌊q⌋ := natSqrt_le _
  have h2n : Int.toNat ⌊q⌋ < (s + 1) * (s + 1) := natSqrt_lt _
  have hsle : ((s : ℝ)) ^ 2 ≤ ((q : ℚ) : ℝ) := by
    have ha : ((s * s : ℕ) : ℚ) ≤ ((⌊q⌋ : ℤ) : ℚ) := by
      rw [show ((⌊q⌋ : ℤ) : ℚ) = ((Int.toNat ⌊q⌋ : ℤ) : ℚ) from by rw [htn]]
      exact_mod_cast h1n
    have hb : ((⌊q⌋ : ℤ) : ℚ) ≤ q := Int.floor_le q
    have hc : ((s * s : ℕ) : ℚ) ≤ q := le_trans ha hb
    have : ((s : ℚ)) ^ 2 ≤ q := by push_cast at hc ⊢; nlinarith [hc]
    exact_mod_cast this
  have hslt : ((q : ℚ) : ℝ) < ((s : ℝ) + 1) ^ 2 := by
    have ha : q < ((⌊q⌋ : ℤ) : ℚ) + 1 := Int.lt_floor_add_one q
    have hb : (⌊q⌋ : ℤ) + 1 ≤ ((s + 1) * (s + 1) : ℕ) := by
      rw [← htn]; exact_mod_cast h2n
    have hc : q < (((s + 1) * (s + 1) : ℕ) : ℚ) := by
      calc q < ((⌊q⌋ : ℤ) : ℚ) + 1 := ha
      _ ≤ (((s + 1) * (s + 1) : ℕ) : ℚ) := by exact_mod_cast hb
    have : q < ((s : ℚ) + 1) ^ 2 := by push_cast at hc ⊢; nlinarith [hc]
    have h2 : ((q : ℚ) : ℝ) < (((s : ℚ) + 1 : ℚ) : ℝ) ^ 2 := by
      rw [show ((((s : ℚ) + 1 : ℚ)) : ℝ) ^ 2 = (((((s : ℚ) + 1 : ℚ) ^ 2 : ℚ)) : ℝ) from by
        push_cast; ring]
      exact_mod_cast this
    calc ((q : ℚ) : ℝ) < (((s : ℚ) + 1 : ℚ) : ℝ) ^ 2 := h2
    _ = ((s : ℝ) + 1) ^ 2 := by push_cast; ring
  have hqr : (0 : ℝ) ≤ ((q : ℚ) : ℝ) := by exact_mod_cast hq
  have hle : ((s : ℝ)) ≤ Real.sqrt ((q : ℚ) : ℝ) := by
    have := Real.sqrt_le_sqrt hsle
    rwa [Real.sqrt_sq (by positivity : (0 : ℝ) ≤ (s : ℝ))] at this
  have hlt : Real.sqrt ((q : ℚ) : ℝ) < (s : ℝ) + 1 := by
    have := Real.sqrt_lt_sqrt hqr hslt
    rwa [Real.sqrt_sq (by positivity : (0 : ℝ) ≤ (s : ℝ) + 1)] at this
  have : ⌊Real.sqrt ((q : ℚ) : ℝ)⌋ = (s : ℤ) := by
    rw [Int.floor_eq_iff]
    constructor
    · exact_mod_cast hle
    · push_cast
      exact hlt
  rw [this, floorSqrtQ]

/-- Squared distances are nonnegative. -/
theorem dist2_nonneg (a b : ℚ × ℚ) : 0 ≤ dist2 a b :=
  add_nonneg (sq_nonneg _) (sq_nonneg _)

/-- The `FLOOR_2D` distance of a point to itself is zero. -/
theorem floorDist2D_self (p : ℚ × ℚ) : floorDist2D p p = 0 := by
  have h : dist2 p p = 0 := by simp [dist2]
  rw [floorDist2D, h]
  rfl

/-- An entry of the synthesized matrix is the metric applied to the two
node positions. -/
theorem synthMatrix_entry (f : (ℚ × ℚ) → (ℚ × ℚ) → Int)
    (coords : List (ℚ × ℚ)) (i j : Nat)
    (hi : i < coords.length) (hj : j < coords.length) :
    ((synthMatrix f coords).getD i []).getD j (.str []) =
      .int (f (coords.getD i (0, 0)) (coords.getD j (0, 0))) := by
  have hi2 : i < (synthMatrix f coords).length := by
    simpa [synthMatrix] using hi
  rw [List.getD_eq_getElem?_getD, List.getD_eq_getElem?_getD,
    List.getElem?_eq_getElem hi2, Option.getD_some]
  have hrow : (synthMatrix f coords)[i] =
      coords.map (fun q2 => Value.int (f coords[i] q2)) := by
    simp [synthMatrix]
  rw [hrow]
  have hj2 : j < (coords.map (fun q2 => Value.int (f coords[i] q2))).length := by
    simpa using hj
  rw [List.getElem?_eq_getElem hj2, Option.getD_some]
  simp only [List.getElem_map]
  rw [List.getD_eq_getElem?_getD, List.getElem?_eq_getElem hi, Option.getD_some]
  rw [List.getD_eq_getElem?_getD, List.getElem?_eq_getElem hj, Option.getD_some]

/-- C7: with no `edge_weight` key, a `node_coord` matrix present,
`edge_weight_type = FLOOR_2D` and computation enabled, `parse_vrplib`
inserts the synthesized n-by-n matrix whose off-diagonal `(i, j)` entry
is the floor of the Euclidean distance between the coordinates of nodes
`i` and `j` (here proved for every entry), with every diagonal entry
equal to 0. -/
theorem claim_c7_floor_2d (text : String) (m0 : Mapping)
    (cm : List (List Value)) (coords : List (ℚ × ℚ))
    (h0 : parse_vrplib_core text = .ok m0)
    (h1 : hasKey ("edge_weight".toList) m0 = false)
    (h2 : lookA ("node_coord".toList) m0 = some (.matrix cm))
    (h3 : coordsOfMatrix cm = some coords)
    (h4 : lookA ("edge_weight_type".toList) m0 =
      some (.value (.str ("FLOOR_2D".toList)))) :
    parse_vrplib text true =
      .ok (upsertA ("edge_weight".toList)
        (.matrix (synthMatrix floorDist2D coords)) m0)
    ∧ (synthMatrix floorDist2D coords).length = coords.length
    ∧ (∀ row ∈ synthMatrix floorDist2D coords, row.length = coords.length)
    ∧ (∀ i j : Nat, i < coords.length → j < coords.length →
        ((synthMatrix floorDist2D coords).getD i []).getD j (.str []) =
          .int ⌊Real.sqrt
            ((dist2 (coords.getD i (0, 0)) (coords.getD j (0, 0)) : ℚ) : ℝ)⌋)
    ∧ (∀ i : Nat, i < coords.length →
        ((synthMatrix floorDist2D coords).getD i []).getD i (.str []) = .int 0) := by
  have h1b : (lookA ("edge_weight".toList) m0).isSome = false := h1
  refine ⟨?_, by simp [synthMatrix], ?_, ?_, ?_⟩
  · simp only [parse_vrplib, h0, hasKey, h1b, h2, h3, h4, Option.isSome_some,
      Bool.not_false, Bool.and_true, Bool.true_and, if_true]
    have hm : metricOf ("FLOOR_2D".toList) = some floorDist2D := rfl
    rw [hm]
  · intro row hrow
    simp only [synthMatrix, List.mem_map] at hrow
    obtain ⟨p, _, hp⟩ := hrow
    rw [← hp]
    simp
  · intro i j hi hj
    rw [synthMatrix_entry floorDist2D coords i j hi hj, floorDist2D,
      floorSqrtQ_eq_floor_sqrt _ (dist2_nonneg _ _)]
  · intro i hi
    rw [synthMatrix_entry floorDist2D coords i i hi hi, floorDist2D_self]

/-- C8: when the core decode produced no `edge_weight` key and the
caller disables computation, `parse_vrplib` returns the core mapping
unchanged — every other key decoded as usual and no `edge_weight` key
present. -/
theorem claim_c8_no_compute (text : String) (m0 : Mapping)
    (h0 : parse_vrplib_core text = .ok m0)
    (h1 : hasKey ("edge_weight".toList) m0 = false) :
    parse_vrplib text false = .ok m0
    ∧ hasKey ("edge_weight".toList) m0 = false := by
  refine ⟨?_, h1⟩
  simp only [parse_vrplib, h0, Bool.false_and, Bool.false_eq_true, if_false]

/-- C7 witness: the hypotheses checked on the concrete instance
`ewText` and the synthesized-matrix conclusion obtained from the
theorem. -/
theorem claim_c7_witness :
    parse_vrplib_core ewText = .ok ewMap
    ∧ hasKey ("edge_weight".toList) ewMap = false
    ∧ lookA ("node_coord".toList) ewMap =
        some (.matrix [[.int 0, .int 0], [.int 3, .int 4]])
    ∧ coordsOfMatrix [[.int 0, .int 0], [.int 3, .int 4]] = some ewCoords
    ∧ lookA ("edge_weight_type".toList) ewMap =
        some (.value (.str ("FLOOR_2D".toList)))
    ∧ (parse_vrplib ewText true =
        .ok (upsertA ("edge_weight".toList)
          (.matrix (synthMatrix floorDist2D ewCoords)) ewMap)
      ∧ (synthMatrix floorDist2D ewCoords).length = ewCoords.length
      ∧ (∀ row ∈ synthMatrix floorDist2D ewCoords, row.length = ewCoords.length)
      ∧ (∀ i j : Nat, i < ewCoords.length → j < ewCoords.length →
          ((synthMatrix floorDist2D ewCoords).getD i []).getD j (.str []) =
            .int ⌊Real.sqrt
              ((dist2 (ewCoords.getD i (0, 0)) (ewCoords.getD j (0, 0)) : ℚ) : ℝ)⌋)
      ∧ (∀ i : Nat, i < ewCoords.length →
          ((synthMatrix floorDist2D ewCoords).getD i []).getD i (.str []) = .int 0)) := by
  have h0 : parse_vrplib_core ewText = .ok ewMap := by rfl
  have h1 : hasKey ("edge_weight".toList) ewMap = false := by decide
  have h2 : lookA ("node_coord".toList) ewMap =
      some (.matrix [[.int 0, .int 0], [.int 3, .int 4]]) := by decide
  have h3 : coordsOfMatrix [[.int 0, .int 0], [.int 3, .int 4]] = some ewCoords := by
    decide
  have h4 : lookA ("edge_weight_type".toList) ewMap =
      some (.value (.str ("FLOOR_2D".toList))) := by decide
  exact ⟨h0, h1, h2, h3, h4,
    claim_c7_floor_2d ewText ewMap [[.int 0, .int 0], [.int 3, .int 4]] ewCoords
      h0 h1 h2 h3 h4⟩

/-- C8 witness: the concrete instance `ewText`, decoded with
`compute_edge_weights = false`, keeps the core mapping with no
`edge_weight` key. -/
theorem claim_c8_witness :
    parse_vrplib_core ewText = .ok ewMap
    ∧ hasKey ("edge_weight".toList) ewMap = false
    ∧ parse_vrplib ewText false = .ok ewMap := by
  have h0 : parse_vrplib_core ewText = .ok ewMap := by rfl
  have h1 : hasKey ("edge_weight".toList) ewMap = false := by decide
  exact ⟨h0, h1, (claim_c8_no_compute ewText ewMap h0 h1).1⟩

end VrpLib
